import Mathlib

/-!
# Verification of the dietary-dashboard parsing and summary logic

Shallow embedding of the repository's logic core:

* `parseRestrictionCell`, `parseSheetData` — the sheet parser from the sync
  script (src/unnamed/part_000, lines 108–167).
* `sortDietaryRestrictions` — the three-tier sort of other-restriction
  groups (src/unnamed/part_001, lines 37–100).
* `generateSummary`, `formatSummaryAsText` — the summary aggregator and text
  renderer; the repository contains two variants of the component, modelled
  in namespaces `ToolV2` (src/unnamed/part_001) and `ToolV1`
  (src/src/components/DietaryRestrictionsTool.jsx).

JavaScript strings are modelled as Lean `String`; `strToLower`,
`strTrim` model `toLowerCase()`/`trim()` (ASCII case mapping, which
covers every string the claims mention).  Out-of-range array access
(`row[j]?`) is modelled with `List.get?`/`Option.getD`.
-/

/-- `listIsSubstr needle l` is true when `needle` occurs contiguously in `l`. -/
def listIsSubstr (needle : List Char) : List Char → Bool
  | [] => needle.isEmpty
  | c :: rest => needle.isPrefixOf (c :: rest) || listIsSubstr needle rest

/-- Model of JavaScript `haystack.includes(needle)` (substring test). -/
def strIncludes (haystack needle : String) : Bool :=
  listIsSubstr needle.data haystack.data

/-- Model of JavaScript `toLowerCase()` (per-character case mapping). -/
def strToLower (s : String) : String := String.mk (s.data.map Char.toLower)

/-- Model of JavaScript `trim()` (strip leading/trailing whitespace). -/
def strTrim (s : String) : String :=
  String.mk
    (((s.data.dropWhile Char.isWhitespace).reverse.dropWhile
        Char.isWhitespace).reverse)

/-- `{ item, severity, notes }` record produced by the parser. -/
structure Restriction where
  item : String
  severity : String
  notes : String
  deriving DecidableEq, Repr

/-- `{ name, restrictions }` record for one spreadsheet column. -/
structure Member where
  name : String
  restrictions : List Restriction
  deriving DecidableEq, Repr

/-- `{ members, restrictionsList }` — the parser's output shape. -/
structure Roster where
  members : List Member
  restrictionsList : List String
  deriving DecidableEq, Repr

/-- The error the sync script raises from `parseSheetData`
(`ContentSyncError` with code `INSUFFICIENT_DATA`). -/
inductive ContentSyncError where
  | insufficientData
  deriving DecidableEq, Repr

deriving instance DecidableEq for Except

/-- Helper for the regex `/\((.*?)\)/`: after an opening parenthesis, take
characters up to the first `)`; `.` does not match a newline, so a newline
aborts this match attempt. -/
def takeUntilClose : List Char → Option (List Char)
  | [] => none
  | c :: rest =>
    if c = ')' then some []
    else if c = '\n' then none
    else (takeUntilClose rest).map (c :: ·)

/-- Model of `cellValue.match(/\((.*?)\)/)`: the capture group of the first
(leftmost, lazily closed) parenthesized substring, if any. -/
def extractParen : List Char → Option (List Char)
  | [] => none
  | c :: rest =>
    if c = '(' then
      match takeUntilClose rest with
      | some content => some content
      | none => extractParen rest
    else extractParen rest

/-- src/unnamed/part_000, lines 108–123 (`parseRestrictionCell`). -/
def parseRestrictionCell (item cellValue : String) : Restriction :=
  let lowerValue := strToLower cellValue
  if strIncludes lowerValue "airborne" then
    { item := item, severity := "airborne",
      notes :=
        match extractParen cellValue.data with
        | some cs => String.mk cs
        | none => "" }
  else if strIncludes lowerValue "small amount" then
    { item := item, severity := "small amounts", notes := cellValue }
  else
    { item := item, severity := "yes", notes := cellValue }

/-- One iteration of the inner `for (let j ...)` loop body: read the cell for
column `j`, and push a restriction onto the member unless the trimmed cell is
empty or (case-insensitively) `"no"`. -/
def processCell (restrictionName : String) (row : List String) (j : Nat)
    (m : Member) : Member :=
  let cellValue := strTrim ((row.get? j).getD "")
  if cellValue ≠ "" ∧ strToLower cellValue ≠ "no" then
    { m with restrictions :=
        m.restrictions ++ [parseRestrictionCell restrictionName cellValue] }
  else m

/-- The inner loop `for (let j = 1; j < row.length && j <= headers.length; j++)`:
member `j - 1` receives cell `row[j]`.  Walking the member list bounds `j` by
the header length; a `j` beyond `row.length` reads an empty cell and records
nothing, exactly as the loop's early exit does. -/
def processCells (restrictionName : String) (row : List String) :
    Nat → List Member → List Member
  | _, [] => []
  | j, m :: ms =>
    processCell restrictionName row j m ::
      processCells restrictionName row (j + 1) ms

/-- One iteration of the outer row loop of `parseSheetData` (lines 143–162):
skip the row when its trimmed first cell is empty/absent, otherwise record the
restriction label (first-seen order, deduplicated) and process every member
column. -/
def processRow (state : List Member × List String) (row : List String) :
    List Member × List String :=
  let restrictionName := strTrim ((row.head?).getD "")
  if restrictionName = "" then state
  else
    let restrictionsList :=
      if state.2.contains restrictionName then state.2
      else state.2 ++ [restrictionName]
    (processCells restrictionName row 1 state.1, restrictionsList)

/-- src/unnamed/part_000, lines 125–167 (`parseSheetData`). -/
def parseSheetData (rows : List (List String)) :
    Except ContentSyncError Roster :=
  if rows.length < 2 then .error .insufficientData
  else
    let headers := ((rows.head?).getD []).drop 1
    let members := headers.map fun name => Member.mk (strTrim name) []
    let st := (rows.drop 1).foldl processRow (members, [])
    .ok { members := st.1, restrictionsList := st.2 }

/-! ## Sorting configuration (src/unnamed/part_001, lines 37–100) -/

/-- `RESTRICTION_SORT_CONFIG` from src/unnamed/part_001. -/
structure SortConfig where
  priorityItems : List String
  bottomItems : List String

def RESTRICTION_SORT_CONFIG : SortConfig :=
  { priorityItems := ["Vegetarian", "Vegan", "gluten"],
    bottomItems := ["None"] }

/-- The `priorityA`/`priorityB` computation: a `forEach` over the priority
list that records the index of a match (exact or substring, case-insensitive);
a later match overwrites an earlier one.  `-1` means no match. -/
def priorityIdx (item : String) : Int :=
  let itemLower := strToLower item
  (RESTRICTION_SORT_CONFIG.priorityItems.enum.foldl
    (fun acc p =>
      let priorityLower := strToLower p.2
      if itemLower = priorityLower ∨ strIncludes itemLower priorityLower then
        (p.1 : Int)
      else acc)
    (-1))

/-- The `bottomA`/`bottomB` computation: `findIndex` of an exact
case-insensitive match in the bottom list, `-1` if absent. -/
def bottomIdx (item : String) : Int :=
  let itemLower := strToLower item
  match RESTRICTION_SORT_CONFIG.bottomItems.findIdx?
      (fun b => itemLower == strToLower b) with
  | some i => (i : Int)
  | none => -1

/-- The comparator passed to `restrictionsArray.sort` in
`sortDietaryRestrictions` (negative: `a` before `b`). -/
def compareRestrictions {α : Type} (a b : String × List α) : Int :=
  let pA := priorityIdx a.1
  let pB := priorityIdx b.1
  let bA := bottomIdx a.1
  let bB := bottomIdx b.1
  if pA ≠ -1 ∧ pB = -1 then -1
  else if pA = -1 ∧ pB ≠ -1 then 1
  else if pA ≠ -1 ∧ pB ≠ -1 then pA - pB
  else if bA ≠ -1 ∧ bB = -1 then 1
  else if bA = -1 ∧ bB ≠ -1 then -1
  else if bA ≠ -1 ∧ bB ≠ -1 then bA - bB
  else (b.2.length : Int) - (a.2.length : Int)

/-- `a` may be placed before `b` by the comparator. -/
def sortLe {α : Type} (a b : String × List α) : Prop :=
  compareRestrictions a b ≤ 0

instance {α : Type} : DecidableRel (@sortLe α) := fun a b =>
  show Decidable (compareRestrictions a b ≤ 0) from inferInstance

/-- `sortDietaryRestrictions` (src/unnamed/part_001, lines 55–100).
ECMAScript `Array.prototype.sort` is stable and the comparator above is
induced by a total preorder, so its result equals that of a stable
insertion sort by the same comparator. -/
def sortDietaryRestrictions {α : Type} (l : List (String × List α)) :
    List (String × List α) :=
  l.insertionSort sortLe

/-- Tier assigned to an item by the comparator: 0 = priority, 2 = bottom,
1 = middle (proof device for characterizing the comparator). -/
def sortTier (item : String) : Nat :=
  if priorityIdx item ≠ -1 then 0 else if bottomIdx item ≠ -1 then 2 else 1

/-- Within-tier key of the comparator: priority index, bottom index, or
negated people count (proof device). -/
def sortSub {α : Type} (a : String × List α) : Int :=
  if priorityIdx a.1 ≠ -1 then priorityIdx a.1
  else if bottomIdx a.1 ≠ -1 then bottomIdx a.1
  else -(a.2.length : Int)

/-! ## Summary aggregation (src/unnamed/part_001, lines 161–234, and
src/src/components/DietaryRestrictionsTool.jsx, lines 36–86) -/

/-- Entry of the `airborne` map: `{ name, notes }`. -/
structure AirborneEntry where
  name : String
  notes : String
  deriving DecidableEq, Repr

/-- Entry of the `other` map: `{ name, severity, notes }`. -/
structure OtherEntry where
  name : String
  severity : String
  notes : String
  deriving DecidableEq, Repr

/-- The summary object assembled by `generateSummary`.  A JavaScript `Map`
iterated with `entries()` is modelled as an association list in key
insertion order. -/
structure Summary where
  mealName : String
  attendees : List String
  airborne : List (String × List AirborneEntry)
  other : List (String × List OtherEntry)
  byPerson : List Member
  deriving DecidableEq, Repr

/-- `map.get(k).push(v)` preceded by `if (!map.has(k)) map.set(k, [])`:
append `v` to the list at key `k`, creating the key at the end on first
use (JavaScript `Map`s preserve insertion order). -/
def mapPush {β : Type} (m : List (String × List β)) (k : String) (v : β) :
    List (String × List β) :=
  if m.any (fun kv => kv.1 == k) then
    m.map fun kv => if kv.1 = k then (kv.1, kv.2 ++ [v]) else kv
  else m ++ [(k, [v])]

namespace ToolV2

/-- `generateSummary` from src/unnamed/part_001, lines 161–234 (the variant
with the "Attending?" filter, the `'None'` synthesis and the configured
sort).  `setSummary(null)` / `setSummary({...})` is modelled as the return
value. -/
def generateSummary (data : Roster) (attendees : List String)
    (meal : String) : Option Summary :=
  let attendeeData :=
    (data.members.filter fun m => attendees.contains (strToLower m.name)).map
      fun person =>
        { person with
            restrictions := person.restrictions.filter fun r =>
              !(strIncludes (strToLower r.item) "attending") }
  if attendeeData.length = 0 then none
  else
    let airborneMap := attendeeData.foldl
      (fun acc person =>
        (person.restrictions.filter fun r => r.severity == "airborne").foldl
          (fun acc r => mapPush acc r.item ⟨person.name, r.notes⟩) acc)
      []
    let otherMap := attendeeData.foldl
      (fun acc person =>
        (person.restrictions.filter fun r => r.severity != "airborne").foldl
          (fun acc r => mapPush acc r.item ⟨person.name, r.severity, r.notes⟩)
          acc)
      []
    let otherMap := attendeeData.foldl
      (fun acc person =>
        if person.restrictions.length = 0 then
          mapPush acc "None" ⟨person.name, "yes", "None"⟩
        else acc)
      otherMap
    let sortedOther := sortDietaryRestrictions otherMap
    some { mealName := meal,
           attendees := attendeeData.map (·.name),
           airborne := airborneMap,
           other := sortedOther,
           byPerson := attendeeData }

/-- `formatSummaryAsText` from src/unnamed/part_001, lines 257–299.  The
airborne section prints only each person's name (no notes). -/
def formatSummaryAsText (summary : Summary) : String :=
  let text :=
    if summary.mealName ≠ "" then
      "Dietary Summary - " ++ summary.mealName ++ "\n\n"
    else "Dietary Summary\n\n"
  let text := text ++ "Attendees: " ++ toString summary.attendees.length ++
    " (" ++ String.intercalate ", " summary.attendees ++ ")\n\n"
  let text :=
    if summary.airborne.length > 0 then
      (summary.airborne.foldl
        (fun t ip =>
          ip.2.foldl (fun t p => t ++ "  - " ++ p.name ++ "\n")
            (t ++ ip.1 ++ "\n"))
        (text ++ "⚠️  AIRBORNE ALLERGIES ⚠️\n" ++
          "==========================================\n")) ++ "\n"
    else text
  let text :=
    if summary.other.length > 0 then
      (summary.other.foldl
        (fun t ip =>
          ip.2.foldl
            (fun t p => t ++ "  - " ++ p.name ++
              (if p.severity ≠ "yes" then " (" ++ p.severity ++ ")" else "") ++
              "\n")
            (t ++ ip.1 ++ "\n"))
        (text ++ "Dietary Restrictions:\n")) ++ "\n"
    else text
  let text := text ++ "Restrictions by Person:\n"
  summary.byPerson.foldl
    (fun t person =>
      let restrictions := person.restrictions.map fun r =>
        r.item ++
          (if r.severity = "airborne" then " (AIRBORNE)"
           else if r.severity ≠ "yes" then " (" ++ r.severity ++ ")"
           else "")
      let joined := String.intercalate ", " restrictions
      t ++ "- " ++ person.name ++ ": " ++
        (if joined ≠ "" then joined else "None") ++ "\n")
    text

end ToolV2

namespace ToolV1

/-- `generateSummary` from src/src/components/DietaryRestrictionsTool.jsx,
lines 36–86 (no restriction filtering, no `'None'` synthesis, no sort). -/
def generateSummary (data : Roster) (attendees : List String)
    (meal : String) : Option Summary :=
  let attendeeData :=
    data.members.filter fun m => attendees.contains (strToLower m.name)
  if attendeeData.length = 0 then none
  else
    let airborneMap := attendeeData.foldl
      (fun acc person =>
        (person.restrictions.filter fun r => r.severity == "airborne").foldl
          (fun acc r => mapPush acc r.item ⟨person.name, r.notes⟩) acc)
      []
    let otherMap := attendeeData.foldl
      (fun acc person =>
        (person.restrictions.filter fun r => r.severity != "airborne").foldl
          (fun acc r => mapPush acc r.item ⟨person.name, r.severity, r.notes⟩)
          acc)
      []
    some { mealName := meal,
           attendees := attendeeData.map (·.name),
           airborne := airborneMap,
           other := otherMap,
           byPerson := attendeeData }

/-- `formatSummaryAsText` from src/src/components/DietaryRestrictionsTool.jsx,
lines 92–133.  Airborne bullets carry the person's notes in parentheses
when present. -/
def formatSummaryAsText (summary : Summary) : String :=
  let text :=
    if summary.mealName ≠ "" then
      "Dietary Summary - " ++ summary.mealName ++ "\n\n"
    else "Dietary Summary\n\n"
  let text := text ++ "Attendees: " ++ toString summary.attendees.length ++
    " (" ++ String.intercalate ", " summary.attendees ++ ")\n\n"
  let text :=
    if summary.airborne.length > 0 then
      (summary.airborne.foldl
        (fun t ip =>
          ip.2.foldl
            (fun t p => t ++ "  - " ++ p.name ++
              (if p.notes ≠ "" then " (" ++ p.notes ++ ")" else "") ++ "\n")
            (t ++ "• " ++ ip.1 ++ "\n"))
        (text ++ "Airborne Allergies:\n")) ++ "\n"
    else text
  let text :=
    if summary.other.length > 0 then
      (summary.other.foldl
        (fun t ip =>
          ip.2.foldl
            (fun t p => t ++ "  - " ++ p.name ++
              (if p.severity ≠ "yes" then " (" ++ p.severity ++ ")" else "") ++
              "\n")
            (t ++ "• " ++ ip.1 ++ "\n"))
        (text ++ "Other Dietary Restrictions:\n")) ++ "\n"
    else text
  let text := text ++ "Restrictions by Person:\n"
  summary.byPerson.foldl
    (fun t person =>
      let restrictions := person.restrictions.map fun r =>
        r.item ++
          (if r.severity = "airborne" then " (AIRBORNE)"
           else if r.severity ≠ "yes" then " (" ++ r.severity ++ ")"
           else "")
      let joined := String.intercalate ", " restrictions
      t ++ "• " ++ person.name ++ ": " ++
        (if joined ≠ "" then joined else "None") ++ "\n")
    text

end ToolV1

/-! ## URL query-parameter round trip (src/unnamed/part_001, lines 119–137
and 236–248)

`encodeURIComponent` / `decodeURIComponent` are ECMAScript builtins; they are
modelled here by their specified semantics: UTF-8 percent-encoding leaving
the unreserved characters `A–Z a–z 0–9 - _ . ! ~ * ' ( )` intact, and the
inverse decoding (returning `none` where the builtin throws `URIError`).
`URLSearchParams` is modelled as a key–value list; per the WHATWG URL
standard, `toString` followed by re-parsing returns each stored value
unchanged, so serialization is the identity on that list. -/

/-- UTF-8 bytes of one Unicode scalar value. -/
def utf8EncodeChar (c : Char) : List Nat :=
  let n := c.toNat
  if n < 0x80 then [n]
  else if n < 0x800 then [0xC0 + n / 64, 0x80 + n % 64]
  else if n < 0x10000 then
    [0xE0 + n / 4096, 0x80 + n / 64 % 64, 0x80 + n % 64]
  else
    [0xF0 + n / 262144, 0x80 + n / 4096 % 64, 0x80 + n / 64 % 64,
     0x80 + n % 64]

/-- Streaming strict UTF-8 decoder: `need` continuation bytes are still
expected, `acc` is the scalar value so far, `lo` the smallest value a
sequence of this length may encode (rejecting overlong forms); surrogates
and values above `0x10FFFF` are rejected on completion, as are truncated
sequences, stray continuation bytes and invalid leading bytes. -/
def utf8DecodeAux : List Nat → Nat → Nat → Nat → Option (List Char)
  | [], need, _, _ => if need = 0 then some [] else none
  | b :: rest, 0, _, _ =>
    if b < 0x80 then (utf8DecodeAux rest 0 0 0).map (Char.ofNat b :: ·)
    else if 0xC2 ≤ b ∧ b ≤ 0xDF then utf8DecodeAux rest 1 (b - 0xC0) 0x80
    else if 0xE0 ≤ b ∧ b ≤ 0xEF then utf8DecodeAux rest 2 (b - 0xE0) 0x800
    else if 0xF0 ≤ b ∧ b ≤ 0xF4 then utf8DecodeAux rest 3 (b - 0xF0) 0x10000
    else none
  | b :: rest, need + 1, acc, lo =>
    if 0x80 ≤ b ∧ b ≤ 0xBF then
      if need = 0 then
        if lo ≤ acc * 64 + (b - 0x80) ∧ acc * 64 + (b - 0x80) < 0x110000 ∧
            ¬(0xD800 ≤ acc * 64 + (b - 0x80) ∧
              acc * 64 + (b - 0x80) ≤ 0xDFFF) then
          (utf8DecodeAux rest 0 0 0).map
            (Char.ofNat (acc * 64 + (b - 0x80)) :: ·)
        else none
      else utf8DecodeAux rest need (acc * 64 + (b - 0x80)) lo
    else none

/-- Strict UTF-8 decoding of a byte list. -/
def utf8Decode (bytes : List Nat) : Option (List Char) :=
  utf8DecodeAux bytes 0 0 0

/-- The characters `encodeURIComponent` leaves unescaped. -/
def isUnreservedChar (c : Char) : Bool :=
  ('A' ≤ c ∧ c ≤ 'Z') ∨ ('a' ≤ c ∧ c ≤ 'z') ∨ ('0' ≤ c ∧ c ≤ '9') ∨
    ['-', '_', '.', '!', '~', '*', Char.ofNat 39, '(', ')'].contains c

/-- Upper-case hexadecimal digit for `n < 16`. -/
def hexUpper (n : Nat) : Char :=
  if n < 10 then Char.ofNat (48 + n) else Char.ofNat (55 + n)

/-- `%XY` escape of one byte. -/
def percentEncodeByte (b : Nat) : List Char :=
  ['%', hexUpper (b / 16), hexUpper (b % 16)]

/-- ECMAScript `encodeURIComponent`. -/
def encodeURIComponent (s : String) : String :=
  String.mk (s.data.flatMap fun c =>
    if isUnreservedChar c then [c]
    else (utf8EncodeChar c).flatMap percentEncodeByte)

/-- Value of a hexadecimal digit character. -/
def hexDigitVal (c : Char) : Option Nat :=
  if '0' ≤ c ∧ c ≤ '9' then some (c.toNat - 48)
  else if 'A' ≤ c ∧ c ≤ 'F' then some (c.toNat - 55)
  else if 'a' ≤ c ∧ c ≤ 'f' then some (c.toNat - 87)
  else none

/-- Streaming percent-decoder: `need` hex digits of the current `%XY`
escape are still expected and `acc` is their value so far.  A `%XY` escape
contributes the byte `XY`, any other character contributes its UTF-8 bytes,
and a malformed escape fails. -/
def percentDecodeAux : List Char → Nat → Nat → Option (List Nat)
  | [], 0, _ => some []
  | [], _ + 1, _ => none
  | c :: rest, 0, _ =>
    if c = '%' then percentDecodeAux rest 2 0
    else (percentDecodeAux rest 0 0).map (fun bs => utf8EncodeChar c ++ bs)
  | c :: rest, need + 1, acc =>
    (hexDigitVal c).elim none fun v =>
      if need = 0 then (percentDecodeAux rest 0 0).map ((acc * 16 + v) :: ·)
      else percentDecodeAux rest need (acc * 16 + v)

/-- Percent-decoding to a byte stream. -/
def percentDecodeBytes (l : List Char) : Option (List Nat) :=
  percentDecodeAux l 0 0

/-- ECMAScript `decodeURIComponent`; `none` models a thrown `URIError`. -/
def decodeURIComponent (s : String) : Option String :=
  (percentDecodeBytes s.data).bind fun bs => (utf8Decode bs).map String.mk

/-- JavaScript `array.join(',')`. -/
def joinComma : List String → String
  | [] => ""
  | [s] => s
  | s :: rest => s ++ "," ++ joinComma rest

/-- Accumulator-based model of JavaScript `string.split(',')`. -/
def splitCommaAux (acc : List Char) : List Char → List String
  | [] => [String.mk acc.reverse]
  | c :: rest =>
    if c = ',' then String.mk acc.reverse :: splitCommaAux [] rest
    else splitCommaAux (c :: acc) rest

/-- JavaScript `string.split(',')` (adjacent separators yield `""`;
`"".split(',')` yields `[""]`). -/
def splitComma (s : String) : List String := splitCommaAux [] s.data

/-- `URLSearchParams`, modelled as its ordered key–value list. -/
structure QueryParams where
  pairs : List (String × String)
  deriving DecidableEq, Repr

/-- `URLSearchParams.set`: replace the value of an existing key, otherwise
append the pair. -/
def QueryParams.set (q : QueryParams) (k v : String) : QueryParams :=
  if q.pairs.any (fun kv => kv.1 == k) then
    ⟨q.pairs.map fun kv => if kv.1 = k then (k, v) else kv⟩
  else ⟨q.pairs ++ [(k, v)]⟩

/-- `URLSearchParams.get`: the first value stored under the key, or `null`. -/
def QueryParams.get (q : QueryParams) (k : String) : Option String :=
  (q.pairs.find? fun kv => kv.1 == k).map (·.2)

/-- The query parameters written by `handleGenerate`
(src/unnamed/part_001, lines 236–248). -/
def handleGenerateParams (selectedAttendees : List String)
    (mealName : String) : QueryParams :=
  let params := QueryParams.set ⟨[]⟩ "attendees" (joinComma selectedAttendees)
  if mealName ≠ "" then params.set "meal" (encodeURIComponent mealName)
  else params

/-- The summary produced by the URL-load `useEffect`
(src/unnamed/part_001, lines 119–137).  The outer `Option` is the effect
itself: `none` models a `URIError` escaping from `decodeURIComponent`;
`some s` is the resulting summary state (`none` = no summary generated). -/
def urlLoadSummary (data : Roster) (params : QueryParams) :
    Option (Option Summary) :=
  match params.get "attendees" with
  | none => some none
  | some attendeesParam =>
    if attendeesParam = "" then some none
    else
      let attendees := (splitComma attendeesParam).filter (fun s => s ≠ "")
      let mealDecoded : Option String :=
        match params.get "meal" with
        | some mp => if mp ≠ "" then decodeURIComponent mp else some ""
        | none => some ""
      match mealDecoded with
      | none => none
      | some meal =>
        if attendees.length > 0 then
          some (ToolV2.generateSummary data attendees meal)
        else some none

/-! ## Spec-side rendering (for the refinement claim about `formatAsText`)

The definitions in `SpecView` follow the specification's words for the text
rendering — "airborne section (item then indented bullet per person with
optional notes in parens), other-restrictions section (same shape, with
severity suffix when severity ≠ yes), and a by-person section listing each
person's comma-joined restriction labels … or None" — stated with
`List.map`/`String.join` so they can be compared with the source's
accumulator folds. -/

namespace SpecView

/-- Title line: meal name or generic. -/
def titleLine (s : Summary) : String :=
  if s.mealName ≠ "" then "Dietary Summary - " ++ s.mealName ++ "\n\n"
  else "Dietary Summary\n\n"

/-- Attendee count and comma-joined list. -/
def attendeesLine (s : Summary) : String :=
  "Attendees: " ++ toString s.attendees.length ++ " (" ++
    String.intercalate ", " s.attendees ++ ")\n\n"

/-- One indented airborne bullet: the person's name with their notes in
parentheses exactly when the notes are non-empty. -/
def airborneBullet (p : AirborneEntry) : String :=
  "  - " ++ p.name ++ (if p.notes ≠ "" then " (" ++ p.notes ++ ")" else "") ++
    "\n"

/-- Airborne section: each item name followed by one bullet per person. -/
def airborneSection (s : Summary) : String :=
  if s.airborne.length > 0 then
    "Airborne Allergies:\n" ++
      String.join (s.airborne.map fun ip =>
        "• " ++ ip.1 ++ "\n" ++ String.join (ip.2.map airborneBullet)) ++ "\n"
  else ""

/-- One indented other-restriction bullet: name plus a severity suffix when
the severity is not `"yes"`. -/
def otherBullet (p : OtherEntry) : String :=
  "  - " ++ p.name ++
    (if p.severity ≠ "yes" then " (" ++ p.severity ++ ")" else "") ++ "\n"

/-- Other-restrictions section, same shape as the airborne one. -/
def otherSection (s : Summary) : String :=
  if s.other.length > 0 then
    "Other Dietary Restrictions:\n" ++
      String.join (s.other.map fun ip =>
        "• " ++ ip.1 ++ "\n" ++ String.join (ip.2.map otherBullet)) ++ "\n"
  else ""

/-- Label of one restriction in the by-person section. -/
def restrictionLabel (r : Restriction) : String :=
  r.item ++
    (if r.severity = "airborne" then " (AIRBORNE)"
     else if r.severity ≠ "yes" then " (" ++ r.severity ++ ")"
     else "")

/-- By-person section: each person with comma-joined labels or `None`. -/
def byPersonSection (s : Summary) : String :=
  "Restrictions by Person:\n" ++
    String.join (s.byPerson.map fun person =>
      let joined :=
        String.intercalate ", " (person.restrictions.map restrictionLabel)
      "• " ++ person.name ++ ": " ++ (if joined ≠ "" then joined else "None") ++
        "\n")

end SpecView

/-- Replace every airborne note of a summary using `f` (used to state that a
renderer ignores the airborne notes). -/
def mapAirborneNotes (f : AirborneEntry → String) (s : Summary) : Summary :=
  { s with airborne := s.airborne.map fun ip =>
      (ip.1, ip.2.map fun p => ⟨p.name, f p⟩) }

/-! Rendering shape of the part_001 variant, stated with `map`/`join`:
its airborne bullets carry only the person's name — never the notes. -/

namespace SpecViewTwo

/-- Airborne section of the part_001 renderer: banner, then each item name
followed by one indented bullet per person containing only the name. -/
def airborneSection (s : Summary) : String :=
  if s.airborne.length > 0 then
    "⚠️  AIRBORNE ALLERGIES ⚠️\n" ++
      "==========================================\n" ++
      String.join (s.airborne.map fun ip =>
        ip.1 ++ "\n" ++
          String.join (ip.2.map fun p => "  - " ++ p.name ++ "\n")) ++ "\n"
  else ""

/-- Other-restrictions section of the part_001 renderer. -/
def otherSection (s : Summary) : String :=
  if s.other.length > 0 then
    "Dietary Restrictions:\n" ++
      String.join (s.other.map fun ip =>
        ip.1 ++ "\n" ++
          String.join (ip.2.map fun p =>
            "  - " ++ p.name ++
              (if p.severity ≠ "yes" then " (" ++ p.severity ++ ")" else "") ++
              "\n")) ++ "\n"
  else ""

/-- By-person section of the part_001 renderer. -/
def byPersonSection (s : Summary) : String :=
  "Restrictions by Person:\n" ++
    String.join (s.byPerson.map fun person =>
      let joined := String.intercalate ", "
        (person.restrictions.map SpecView.restrictionLabel)
      "- " ++ person.name ++ ": " ++ (if joined ≠ "" then joined else "None") ++
        "\n")

end SpecViewTwo

section SortLemmas

/-- The priority index is `-1` or the index of one of the three entries. -/
theorem priorityIdx_range (s : String) :
    priorityIdx s = -1 ∨ (0 ≤ priorityIdx s ∧ priorityIdx s ≤ 2) := by
  simp only [priorityIdx, RESTRICTION_SORT_CONFIG, List.enum, List.enumFrom,
    List.foldl_cons, List.foldl_nil]
  split_ifs <;> omega

/-- Closed form of the bottom-list lookup. -/
theorem bottomIdx_eq (s : String) :
    bottomIdx s = if strToLower s = strToLower "None" then 0 else -1 := by
  by_cases hs : strToLower s = strToLower "None" <;>
    simp [bottomIdx, RESTRICTION_SORT_CONFIG, List.findIdx?_cons,
      List.findIdx?_nil, hs]

/-- The bottom index is `-1` or `0`. -/
theorem bottomIdx_range (s : String) :
    bottomIdx s = -1 ∨ bottomIdx s = 0 := by
  rw [bottomIdx_eq]; split_ifs <;> omega

/-- An item in the bottom tier (lower-cased name `"none"`) never matches the
priority list. -/
theorem priorityIdx_of_bottom (s : String) (h : bottomIdx s ≠ -1) :
    priorityIdx s = -1 := by
  rw [bottomIdx_eq] at h
  by_cases hs : strToLower s = strToLower "None"
  · simp only [priorityIdx, RESTRICTION_SORT_CONFIG]
    rw [hs]
    decide
  · rw [if_neg hs] at h
    exact absurd rfl h

set_option maxHeartbeats 1000000 in
/-- The comparator accepts `a` before `b` exactly when the (tier, sub-key)
pair of `a` is lexicographically at most that of `b`. -/
theorem compare_le_iff {α : Type} (a b : String × List α) :
    compareRestrictions a b ≤ 0 ↔
      (sortTier a.1 < sortTier b.1 ∨
        (sortTier a.1 = sortTier b.1 ∧ sortSub a ≤ sortSub b)) := by
  have r1 := priorityIdx_range a.1
  have r2 := priorityIdx_range b.1
  have r3 := bottomIdx_range a.1
  have r4 := bottomIdx_range b.1
  have d1 : bottomIdx a.1 = -1 ∨ priorityIdx a.1 = -1 := by
    by_cases hb : bottomIdx a.1 = -1
    · exact Or.inl hb
    · exact Or.inr (priorityIdx_of_bottom _ hb)
  have d2 : bottomIdx b.1 = -1 ∨ priorityIdx b.1 = -1 := by
    by_cases hb : bottomIdx b.1 = -1
    · exact Or.inl hb
    · exact Or.inr (priorityIdx_of_bottom _ hb)
  unfold compareRestrictions sortTier sortSub
  dsimp only
  split_ifs <;>
    first
      | omega
      | (simp only [false_and, and_false, or_false, false_or]; omega)

/-- The comparator relation is total. -/
theorem sortLe_total {α : Type} (a b : String × List α) :
    sortLe a b ∨ sortLe b a := by
  unfold sortLe
  rw [compare_le_iff, compare_le_iff]
  omega

/-- The comparator relation is transitive. -/
theorem sortLe_trans {α : Type} (a b c : String × List α) (h1 : sortLe a b)
    (h2 : sortLe b c) : sortLe a c := by
  unfold sortLe at h1 h2 ⊢
  rw [compare_le_iff] at h1 h2 ⊢
  omega

/-- Unpack `sortLe` into the claim-level three-tier description. -/
theorem sortLe_imp_tiers {α : Type} (a b : String × List α) (h : sortLe a b) :
    (priorityIdx a.1 = -1 → priorityIdx b.1 = -1) ∧
    (priorityIdx a.1 ≠ -1 → priorityIdx b.1 ≠ -1 →
      priorityIdx a.1 ≤ priorityIdx b.1) ∧
    (bottomIdx a.1 ≠ -1 → bottomIdx b.1 ≠ -1) ∧
    (bottomIdx a.1 ≠ -1 → bottomIdx b.1 ≠ -1 →
      bottomIdx a.1 ≤ bottomIdx b.1) ∧
    (priorityIdx a.1 = -1 ∧ bottomIdx a.1 = -1 →
      priorityIdx b.1 = -1 ∧ bottomIdx b.1 = -1 →
      b.2.length ≤ a.2.length) := by
  have r1 := priorityIdx_range a.1
  have r2 := priorityIdx_range b.1
  have r3 := bottomIdx_range a.1
  have r4 := bottomIdx_range b.1
  have d1 : bottomIdx a.1 = -1 ∨ priorityIdx a.1 = -1 := by
    by_cases hb : bottomIdx a.1 = -1
    · exact Or.inl hb
    · exact Or.inr (priorityIdx_of_bottom _ hb)
  have d2 : bottomIdx b.1 = -1 ∨ priorityIdx b.1 = -1 := by
    by_cases hb : bottomIdx b.1 = -1
    · exact Or.inl hb
    · exact Or.inr (priorityIdx_of_bottom _ hb)
  unfold sortLe at h
  rw [compare_le_iff] at h
  unfold sortTier sortSub at h
  split_ifs at h <;>
    first
      | omega
      | (simp only [false_and, and_false, or_false, false_or] at h; omega)

end SortLemmas

/-- **C1.** The other-restrictions sort produces three tiers: the
priority-list matches first (ordered by priority index), then the remaining
non-bottom items by descending people count, then the bottom-list matches
(ordered by bottom index); and on the groups Nuts/Vegan/None/Gluten-Free it
returns Vegan, Gluten-Free, Nuts, None. -/
theorem sortDietaryRestrictions_three_tiers :
    (∀ (α : Type) (l : List (String × List α)),
      (sortDietaryRestrictions l).Perm l ∧
      (sortDietaryRestrictions l).Pairwise (fun a b =>
        (priorityIdx a.1 = -1 → priorityIdx b.1 = -1) ∧
        (priorityIdx a.1 ≠ -1 → priorityIdx b.1 ≠ -1 →
          priorityIdx a.1 ≤ priorityIdx b.1) ∧
        (bottomIdx a.1 ≠ -1 → bottomIdx b.1 ≠ -1) ∧
        (bottomIdx a.1 ≠ -1 → bottomIdx b.1 ≠ -1 →
          bottomIdx a.1 ≤ bottomIdx b.1) ∧
        (priorityIdx a.1 = -1 ∧ bottomIdx a.1 = -1 →
          priorityIdx b.1 = -1 ∧ bottomIdx b.1 = -1 →
          b.2.length ≤ a.2.length))) ∧
    sortDietaryRestrictions
      [("Nuts", ["p1", "p2", "p3"]), ("Vegan", ["v"]), ("None", ["n"]),
       ("Gluten-Free", ["g1", "g2"])] =
      [("Vegan", ["v"]), ("Gluten-Free", ["g1", "g2"]),
       ("Nuts", ["p1", "p2", "p3"]), ("None", ["n"])] := by
  constructor
  · intro α l
    haveI : IsTotal (String × List α) sortLe := ⟨sortLe_total⟩
    haveI : IsTrans (String × List α) sortLe := ⟨sortLe_trans⟩
    refine ⟨List.perm_insertionSort sortLe l, ?_⟩
    exact List.Pairwise.imp (fun h => sortLe_imp_tiers _ _ h)
      (List.sorted_insertionSort sortLe l)
  · decide

/-- Witness for C1: the three-tier theorem applied to a concrete list. -/
theorem sortDietaryRestrictions_three_tiers_witness :
    (sortDietaryRestrictions [("Nuts", (["x"] : List String))]).Perm
      [("Nuts", ["x"])] :=
  (sortDietaryRestrictions_three_tiers.1 String [("Nuts", ["x"])]).1

/-- **C2.** A cell whose lower-cased value contains "airborne" is classified
with severity `"airborne"` and notes equal to the first parenthesized
substring of the original value (empty when there is none); consequently the
two-row example grid yields member A without restrictions and member B with
the single restriction (Nuts, airborne, "trace"). -/
theorem parseRestrictionCell_airborne :
    (∀ (item v : String), strIncludes (strToLower v) "airborne" = true →
      parseRestrictionCell item v =
        { item := item, severity := "airborne",
          notes :=
            match extractParen v.data with
            | some cs => String.mk cs
            | none => "" }) ∧
    parseSheetData [["", "A", "B"], ["Nuts", "No", "Airborne (trace)"]] =
      .ok { members :=
              [ { name := "A", restrictions := [] },
                { name := "B", restrictions :=
                    [{ item := "Nuts", severity := "airborne",
                       notes := "trace" }] } ],
            restrictionsList := ["Nuts"] } := by
  constructor
  · intro item v h
    unfold parseRestrictionCell
    dsimp only
    rw [if_pos h]
  · decide

/-- Witness for C2: the airborne rule applied to the example cell. -/
theorem parseRestrictionCell_airborne_witness :
    parseRestrictionCell "Nuts" "Airborne (trace)" =
      { item := "Nuts", severity := "airborne", notes := "trace" } := by
  have h := parseRestrictionCell_airborne.1 "Nuts" "Airborne (trace)" (by decide)
  exact h.trans (by decide)

/-- **C3** (counterexample): the classifier does not use the underscore
form `"small_amounts"`; at the claim's own example the severity differs. -/
theorem parseRestrictionCell_small_counterexample :
    (parseRestrictionCell "Dairy" "Small Amount ok").severity ≠
      "small_amounts" := by decide

/-- **C3** (amended): a cell whose lower-cased value contains "small amount"
but not "airborne" is classified with the literal severity
`"small amounts"` (a space, not an underscore) and notes equal to the given
value; in particular classify("Dairy", "Small Amount ok") returns severity
"small amounts" and notes "Small Amount ok". -/
theorem parseRestrictionCell_small_amounts :
    (∀ (item v : String), strIncludes (strToLower v) "small amount" = true →
      strIncludes (strToLower v) "airborne" = false →
      parseRestrictionCell item v =
        { item := item, severity := "small amounts", notes := v }) ∧
    parseRestrictionCell "Dairy" "Small Amount ok" =
      { item := "Dairy", severity := "small amounts",
        notes := "Small Amount ok" } := by
  constructor
  · intro item v hs ha
    unfold parseRestrictionCell
    dsimp only
    rw [if_neg (by simp [ha]), if_pos hs]
  · decide

/-- Witness for C3: the amended rule applied at a concrete cell. -/
theorem parseRestrictionCell_small_amounts_witness :
    parseRestrictionCell "Dairy" "small amount fine" =
      { item := "Dairy", severity := "small amounts",
        notes := "small amount fine" } :=
  parseRestrictionCell_small_amounts.1 "Dairy" "small amount fine"
    (by decide) (by decide)

/-- **C5.** `parse` fails with the insufficient-data error exactly on grids
with fewer than two rows; with at least two rows it returns a roster. -/
theorem parseSheetData_row_count :
    ∀ (rows : List (List String)),
      (rows.length < 2 → parseSheetData rows = .error .insufficientData) ∧
      (2 ≤ rows.length → ∃ roster, parseSheetData rows = .ok roster) := by
  intro rows
  constructor
  · intro h
    unfold parseSheetData
    rw [if_pos h]
  · intro h
    unfold parseSheetData
    rw [if_neg (by omega)]
    exact ⟨_, rfl⟩

/-- Witness for C5 at concrete grids of 0 and 2 rows. -/
theorem parseSheetData_row_count_witness :
    parseSheetData [] = .error .insufficientData ∧
    ∃ roster, parseSheetData [[], []] = .ok roster :=
  ⟨(parseSheetData_row_count []).1 (by decide),
   (parseSheetData_row_count [[], []]).2 (by decide)⟩

/-- `processCell` restated with the absence condition phrased as in the
spec: empty or case-insensitive `"no"` records nothing, anything else
records a classified restriction. -/
theorem processCell_eq (n : String) (row : List String) (j : Nat)
    (m : Member) :
    processCell n row j m =
      if strTrim ((row.get? j).getD "") = "" ∨
          strToLower (strTrim ((row.get? j).getD "")) = "no" then m
      else { m with restrictions := m.restrictions ++
              [parseRestrictionCell n (strTrim ((row.get? j).getD ""))] } := by
  unfold processCell
  dsimp only
  split_ifs with h1 h2 <;> first | rfl | tauto

/-- **C7.** In a processed cell, a trimmed value that is empty or equals
"no" in any letter case records no restriction, and any other value records
the classified restriction; at the concrete grids, "NO" and "No" record
nothing and "Not sure" yields severity "yes" with notes "Not sure". -/
theorem parseSheetData_cell_rule :
    (∀ v : String,
      parseSheetData [["", "A"], ["Food", v]] =
        .ok { members :=
                [ { name := "A", restrictions :=
                      if strTrim v = "" ∨ strToLower (strTrim v) = "no" then []
                      else [parseRestrictionCell "Food" (strTrim v)] } ],
              restrictionsList := ["Food"] }) ∧
    parseSheetData [["", "A"], ["Food", "NO"]] =
      .ok { members := [{ name := "A", restrictions := [] }],
            restrictionsList := ["Food"] } ∧
    parseSheetData [["", "A"], ["Food", "No"]] =
      .ok { members := [{ name := "A", restrictions := [] }],
            restrictionsList := ["Food"] } ∧
    parseSheetData [["", "A"], ["Food", "Not sure"]] =
      .ok { members :=
              [ { name := "A", restrictions :=
                    [{ item := "Food", severity := "yes",
                       notes := "Not sure" }] } ],
            restrictionsList := ["Food"] } := by
  refine ⟨?_, by decide, by decide, by decide⟩
  intro v
  unfold parseSheetData
  rw [if_neg (by simp)]
  show (Except.ok
      { members :=
          [processCell "Food" ["Food", v] 1 { name := "A", restrictions := [] }],
        restrictionsList := ["Food"] } : Except ContentSyncError Roster) = _
  rw [processCell_eq]
  simp only [List.get?, Option.getD]
  split_ifs <;> rfl

/-- **C4** (counterexample): the request "Alice" matches member "alice"
ignoring letter case, yet both variants of `generateSummary` return null,
so matching is not case-insensitive on the requested side. -/
theorem generateSummary_case_counterexample :
    strToLower "Alice" = strToLower "alice" ∧
    ToolV2.generateSummary
      { members := [{ name := "alice", restrictions := [] }],
        restrictionsList := [] } ["Alice"] "x" = none ∧
    ToolV1.generateSummary
      { members := [{ name := "alice", restrictions := [] }],
        restrictionsList := [] } ["Alice"] "x" = none := by decide

/-- **C4** (amended): a roster member is selected exactly when its
lower-cased name occurs verbatim in the requested attendee list (so the
lower-case request "alice" matches member "Alice", but "Alice" matches
nothing), and the summary is null exactly when no member qualifies; the
summary's attendees are the names of the qualifying members in roster
order. -/
theorem generateSummary_selection :
    ∀ (data : Roster) (attendees : List String) (meal : String),
      ((ToolV2.generateSummary data attendees meal).map Summary.attendees =
        if (data.members.filter fun m =>
              attendees.contains (strToLower m.name)) = [] then none
        else some ((data.members.filter fun m =>
              attendees.contains (strToLower m.name)).map Member.name)) ∧
      ((ToolV1.generateSummary data attendees meal).map Summary.attendees =
        if (data.members.filter fun m =>
              attendees.contains (strToLower m.name)) = [] then none
        else some ((data.members.filter fun m =>
              attendees.contains (strToLower m.name)).map Member.name)) := by
  intro data attendees meal
  by_cases h :
      (data.members.filter fun m => attendees.contains (strToLower m.name)) = []
  · constructor
    · simp only [ToolV2.generateSummary]
      rw [h]
      simp
    · simp only [ToolV1.generateSummary]
      rw [h]
      simp
  · constructor
    · simp only [ToolV2.generateSummary]
      rw [if_neg (by simpa [List.length_eq_zero] using h), if_neg h]
      dsimp only [Option.map]
      rw [List.map_map]
      rfl
    · simp only [ToolV1.generateSummary]
      rw [if_neg (by simpa [List.length_eq_zero] using h), if_neg h]
      rfl

section ParserLemmas

/-- The classifier always labels the restriction with the given item. -/
theorem parseRestrictionCell_item (i v : String) :
    (parseRestrictionCell i v).item = i := by
  unfold parseRestrictionCell
  dsimp only
  split_ifs <;> rfl

/-- Processing a row's cells does not change the number of members. -/
theorem processCells_length (n : String) (row : List String) :
    ∀ (j : Nat) (ms : List Member),
      (processCells n row j ms).length = ms.length
  | _, [] => rfl
  | j, m :: ms => by
    simp [processCells, processCells_length n row (j + 1) ms]

/-- Processing a row does not change the number of members. -/
theorem processRow_fst_length (st : List Member × List String)
    (row : List String) : (processRow st row).1.length = st.1.length := by
  unfold processRow
  dsimp only
  split_ifs <;> first | rfl | exact processCells_length _ _ _ _

/-- Folding rows does not change the number of members. -/
theorem foldl_processRow_length :
    ∀ (rows : List (List String)) (st : List Member × List String),
      (rows.foldl processRow st).1.length = st.1.length
  | [], _ => rfl
  | row :: rows, st => by
    rw [List.foldl_cons, foldl_processRow_length rows]
    exact processRow_fst_length st row

/-- A restriction of a processed member is an old one or carries the row's
item name. -/
theorem processCell_restrictions_sub (n : String) (row : List String)
    (j : Nat) (m : Member) :
    ∀ r ∈ (processCell n row j m).restrictions,
      r ∈ m.restrictions ∨ r.item = n := by
  intro r hr
  rw [processCell_eq] at hr
  split_ifs at hr
  · exact Or.inl hr
  · rcases List.mem_append.mp hr with h1 | h1
    · exact Or.inl h1
    · right
      rw [List.mem_singleton.mp h1, parseRestrictionCell_item]

/-- Every member produced by `processCells` refines some input member. -/
theorem processCells_mem_sub (n : String) (row : List String) :
    ∀ (j : Nat) (ms : List Member), ∀ m' ∈ processCells n row j ms,
      ∃ m ∈ ms, ∀ r ∈ m'.restrictions, r ∈ m.restrictions ∨ r.item = n := by
  intro j ms
  induction ms generalizing j with
  | nil => intro m' h; cases h
  | cons m ms ih =>
    intro m' h
    rcases List.mem_cons.mp h with h | h
    · refine ⟨m, List.mem_cons_self m ms, ?_⟩
      rw [h]
      exact processCell_restrictions_sub n row j m
    · obtain ⟨mm, hmm, hsub⟩ := ih (j + 1) m' h
      exact ⟨mm, List.mem_cons_of_mem _ hmm, hsub⟩

/-- `processRow` preserves the invariant that every recorded item appears in
the restrictions list. -/
theorem processRow_items (st : List Member × List String) (row : List String)
    (hinv : ∀ m ∈ st.1, ∀ r ∈ m.restrictions, r.item ∈ st.2) :
    ∀ m ∈ (processRow st row).1, ∀ r ∈ m.restrictions,
      r.item ∈ (processRow st row).2 := by
  unfold processRow
  dsimp only
  split_ifs with hn hc
  · exact hinv
  · intro m' hm' r hr
    obtain ⟨m, hm, hsub⟩ := processCells_mem_sub _ _ _ _ _ hm'
    rcases hsub r hr with h1 | h1
    · exact hinv m hm r h1
    · rw [h1]
      exact List.elem_iff.mp hc
  · intro m' hm' r hr
    obtain ⟨m, hm, hsub⟩ := processCells_mem_sub _ _ _ _ _ hm'
    rcases hsub r hr with h1 | h1
    · exact List.mem_append_left _ (hinv m hm r h1)
    · rw [h1]
      exact List.mem_append_right _ (List.mem_singleton_self _)

/-- The item invariant holds after folding any rows from a state that
satisfies it. -/
theorem foldl_processRow_items :
    ∀ (rows : List (List String)) (st : List Member × List String),
      (∀ m ∈ st.1, ∀ r ∈ m.restrictions, r.item ∈ st.2) →
      ∀ m ∈ (rows.foldl processRow st).1, ∀ r ∈ m.restrictions,
        r.item ∈ (rows.foldl processRow st).2
  | [], _, hinv => hinv
  | row :: rows, st, hinv => by
    rw [List.foldl_cons]
    exact foldl_processRow_items rows _ (processRow_items st row hinv)

/-- A cell read below the truncation bound is unchanged by truncation. -/
theorem processCell_take (n : String) (row : List String) (t j : Nat)
    (hj : j < t) (m : Member) :
    processCell n (row.take t) j m = processCell n row j m := by
  unfold processCell
  rw [List.get?_take hj]

/-- Truncating a row beyond the member columns does not change cell
processing. -/
theorem processCells_take (n : String) (row : List String) (t : Nat) :
    ∀ (j : Nat) (ms : List Member), j + ms.length ≤ t →
      processCells n (row.take t) j ms = processCells n row j ms
  | _, [], _ => rfl
  | j, m :: ms, h => by
    simp only [processCells]
    rw [processCell_take n row t j (by simp at h; omega) m,
      processCells_take n row t (j + 1) ms (by simp at h; omega)]

/-- Truncating a row beyond the member columns does not change row
processing. -/
theorem processRow_take (st : List Member × List String) (row : List String)
    (t : Nat) (h : st.1.length + 1 ≤ t) :
    processRow st (row.take t) = processRow st row := by
  unfold processRow
  rw [List.head?_take, if_neg (by omega : ¬ t = 0)]
  dsimp only
  split_ifs <;>
    first
      | rfl
      | rw [processCells_take _ row t 1 st.1 (by omega)]

/-- Truncating every row beyond the member columns does not change the
fold. -/
theorem foldl_processRow_take :
    ∀ (rows : List (List String)) (st : List Member × List String) (t : Nat),
      st.1.length + 1 ≤ t →
      (rows.map fun row => row.take t).foldl processRow st =
        rows.foldl processRow st
  | [], _, _, _ => rfl
  | row :: rows, st, t, h => by
    rw [List.map_cons, List.foldl_cons, List.foldl_cons,
      processRow_take st row t h]
    refine foldl_processRow_take rows _ t ?_
    rw [processRow_fst_length]
    exact h

end ParserLemmas

/-- **C6.** For a grid accepted by `parse`: every item in a member's
restrictions also appears in `restrictionsList`; the member count is the
header-column count minus the label column; and truncating every data row
to the header width changes nothing (cells beyond the header contribute no
restriction). -/
theorem parseSheetData_invariants :
    ∀ (r₀ : List String) (rest : List (List String)) (roster : Roster),
      parseSheetData (r₀ :: rest) = .ok roster →
      (∀ m ∈ roster.members, ∀ r ∈ m.restrictions,
        r.item ∈ roster.restrictionsList) ∧
      roster.members.length = r₀.length - 1 ∧
      parseSheetData
          (r₀ :: rest.map fun row => row.take (1 + (r₀.length - 1))) =
        .ok roster := by
  intro r₀ rest roster h
  have hlen : ¬ ((r₀ :: rest).length < 2) := by
    intro hl
    unfold parseSheetData at h
    rw [if_pos hl] at h
    cases h
  unfold parseSheetData at h ⊢
  rw [if_neg hlen] at h
  rw [if_neg (by simpa using hlen)]
  dsimp only [List.head?, Option.getD, List.drop] at h ⊢
  injection h with h
  have hinit : ∀ m ∈ (r₀.drop 1).map fun name => Member.mk (strTrim name) [],
      ∀ r ∈ m.restrictions, r.item ∈ ([] : List String) := by
    intro m hm r hr
    obtain ⟨name, _, hname⟩ := List.mem_map.mp hm
    rw [← hname] at hr
    cases hr
  refine ⟨?_, ?_, ?_⟩
  · rw [← h]
    exact foldl_processRow_items rest _ hinit
  · rw [← h]
    dsimp only
    rw [foldl_processRow_length]
    simp
  · rw [foldl_processRow_take rest _ _
      (by simp only [List.length_map, List.length_drop]; omega)]
    rw [h]

/-- Witness for C6: the invariants at a grid with an extra trailing data
column. -/
theorem parseSheetData_invariants_witness :
    (∀ m ∈ (Roster.mk [Member.mk "A" [Restriction.mk "Food" "yes" "yes"]]
        ["Food"]).members,
      ∀ r ∈ m.restrictions,
        r.item ∈ (Roster.mk [Member.mk "A" [Restriction.mk "Food" "yes" "yes"]]
          ["Food"]).restrictionsList) ∧
    (Roster.mk [Member.mk "A" [Restriction.mk "Food" "yes" "yes"]]
        ["Food"]).members.length = (["", "A"] : List String).length - 1 ∧
    parseSheetData
        [["", "A"],
         (["Food", "yes", "EXTRA"] : List String).take
           (1 + ((["", "A"] : List String).length - 1))] =
      .ok (Roster.mk [Member.mk "A" [Restriction.mk "Food" "yes" "yes"]]
        ["Food"]) :=
  parseSheetData_invariants ["", "A"] [["Food", "yes", "EXTRA"]] _ (by decide)

section RaggedLemmas

/-- A row whose trimmed first cell is empty (or absent) leaves the state
unchanged. -/
theorem processRow_skip (st : List Member × List String) (row : List String)
    (h : strTrim ((row.head?).getD "") = "") : processRow st row = st := by
  unfold processRow
  rw [if_pos h]

/-- Cells taken from a row padded with empty strings read the same as from
the original row. -/
theorem getD_pad (row : List String) (k j : Nat) :
    (((row ++ List.replicate k "").get? j).getD "") =
      ((row.get? j).getD "") := by
  rcases Nat.lt_or_ge j row.length with hj | hj
  · rw [List.get?_append hj]
  · rw [List.get?_append_right hj, List.get?_len_le hj]
    rcases Nat.lt_or_ge (j - row.length) k with h2 | h2
    · simp [List.get?_eq_getElem?, List.getElem?_replicate, h2]
    · simp [List.get?_eq_getElem?, List.getElem?_replicate, Nat.not_lt.mpr h2]

/-- Padding a row with empty cells does not change one cell step. -/
theorem processCell_pad (n : String) (row : List String) (k j : Nat)
    (m : Member) :
    processCell n (row ++ List.replicate k "") j m = processCell n row j m := by
  unfold processCell
  rw [getD_pad]

/-- Padding a row with empty cells does not change the cell loop. -/
theorem processCells_pad (n : String) (row : List String) (k : Nat) :
    ∀ (j : Nat) (ms : List Member),
      processCells n (row ++ List.replicate k "") j ms =
        processCells n row j ms
  | _, [] => rfl
  | j, m :: ms => by
    simp only [processCells]
    rw [processCell_pad, processCells_pad n row k (j + 1) ms]

/-- Padding a row with empty cells does not change row processing. -/
theorem processRow_pad (st : List Member × List String) (row : List String)
    (k : Nat) :
    processRow st (row ++ List.replicate k "") = processRow st row := by
  cases row with
  | nil =>
    have hpad : strTrim ((((List.replicate k "" : List String)).head?).getD "")
        = "" := by
      cases k <;> rfl
    rw [List.nil_append, processRow_skip st (List.replicate k "") hpad,
      processRow_skip st [] (by rfl)]
  | cons c cs =>
    show processRow st (c :: (cs ++ List.replicate k "")) = _
    unfold processRow
    dsimp only [List.head?]
    split_ifs <;>
      first
        | rfl
        | rw [show c :: (cs ++ List.replicate k "") =
                (c :: cs) ++ List.replicate k "" from rfl,
            processCells_pad]

/-- Skipped rows can be dropped from the fold without changing it. -/
theorem foldl_processRow_filter :
    ∀ (rows : List (List String)) (st : List Member × List String),
      rows.foldl processRow st =
        (rows.filter fun row =>
          !(strTrim ((row.head?).getD "") == "")).foldl processRow st
  | [], _ => rfl
  | row :: rows, st => by
    by_cases hn : strTrim ((row.head?).getD "") = ""
    · rw [List.foldl_cons, processRow_skip st row hn,
        List.filter_cons_of_neg (by simp [hn])]
      exact foldl_processRow_filter rows st
    · rw [List.foldl_cons, List.filter_cons_of_pos (by simp [hn]),
        List.foldl_cons]
      exact foldl_processRow_filter rows (processRow st row)

end RaggedLemmas

/-- **C10.** `parse` always succeeds on grids with at least two rows, even
ragged ones: a data row whose first cell is empty or absent is skipped
entirely (dropping such rows changes nothing), and missing cells behave as
empty strings (padding a row with empty cells changes nothing). -/
theorem parseSheetData_ragged_safe :
    (∀ rows : List (List String), 2 ≤ rows.length →
      ∃ roster, parseSheetData rows = .ok roster) ∧
    (∀ (st : List Member × List String) (row : List String),
      strTrim ((row.head?).getD "") = "" → processRow st row = st) ∧
    (∀ (st : List Member × List String) (rows : List (List String)),
      rows.foldl processRow st =
        (rows.filter fun row =>
          !(strTrim ((row.head?).getD "") == "")).foldl processRow st) ∧
    (∀ (st : List Member × List String) (row : List String) (k : Nat),
      processRow st (row ++ List.replicate k "") = processRow st row) := by
  refine ⟨?_, processRow_skip, fun st rows => foldl_processRow_filter rows st,
    fun st row k => processRow_pad st row k⟩
  intro rows h
  unfold parseSheetData
  rw [if_neg (by omega)]
  exact ⟨_, rfl⟩

/-- Witness for C10: totality, skipping and padding at concrete inputs. -/
theorem parseSheetData_ragged_safe_witness :
    (∃ roster,
      parseSheetData [["", "A"], ["", "ignored"], ["Food"]] = .ok roster) ∧
    processRow ([], []) [" ", "x"] = ([], []) ∧
    processRow ([], []) (["Food", "yes"] ++ List.replicate 3 "") =
      processRow ([], []) ["Food", "yes"] :=
  ⟨parseSheetData_ragged_safe.1 [["", "A"], ["", "ignored"], ["Food"]]
      (by decide),
   parseSheetData_ragged_safe.2.1 ([], []) [" ", "x"] (by decide),
   parseSheetData_ragged_safe.2.2.2 ([], []) ["Food", "yes"] 3⟩

section FormatLemmas

/-- `String.join` distributes over cons. -/
theorem string_join_cons (s : String) (l : List String) :
    String.join (s :: l) = s ++ String.join l := by
  simp only [String.join_eq, List.map_cons, List.flatten_cons]
  rfl

/-- A fold that appends one rendered piece per element equals the start text
followed by the joined pieces. -/
theorem foldl_append_eq {α : Type} (f : α → String) :
    ∀ (l : List α) (t : String),
      l.foldl (fun acc x => acc ++ f x) t = t ++ String.join (l.map f)
  | [], t => by
    show t = t ++ String.join []
    rw [show String.join ([] : List String) = "" from rfl, String.append_empty]
  | x :: l, t => by
    rw [List.map_cons, List.foldl_cons, foldl_append_eq f l (t ++ f x),
      string_join_cons, ← String.append_assoc]

/-- The empty string is a left identity for append. -/
theorem string_empty_append (s : String) : "" ++ s = s := rfl

/-- The jsx renderer decomposes into the spec's five sections; its airborne
bullets carry notes in parentheses exactly when non-empty. -/
theorem formatV1_sections (s : Summary) :
    ToolV1.formatSummaryAsText s =
      SpecView.titleLine s ++ SpecView.attendeesLine s ++
        SpecView.airborneSection s ++ SpecView.otherSection s ++
        SpecView.byPersonSection s := by
  unfold ToolV1.formatSummaryAsText SpecView.titleLine SpecView.attendeesLine
    SpecView.airborneSection SpecView.airborneBullet SpecView.otherSection
    SpecView.otherBullet SpecView.byPersonSection SpecView.restrictionLabel
  dsimp only
  simp only [foldl_append_eq, String.append_assoc]
  split_ifs <;>
    simp only [String.append_empty, string_empty_append, String.append_assoc]

/-- The part_001 renderer decomposes into the same five-section shape, with
airborne bullets that carry only the person's name. -/
theorem formatV2_sections (s : Summary) :
    ToolV2.formatSummaryAsText s =
      SpecView.titleLine s ++ SpecView.attendeesLine s ++
        SpecViewTwo.airborneSection s ++ SpecViewTwo.otherSection s ++
        SpecViewTwo.byPersonSection s := by
  unfold ToolV2.formatSummaryAsText SpecView.titleLine SpecView.attendeesLine
    SpecViewTwo.airborneSection SpecViewTwo.otherSection
    SpecViewTwo.byPersonSection SpecView.restrictionLabel
  dsimp only
  simp only [foldl_append_eq, String.append_assoc]
  split_ifs <;>
    simp only [String.append_empty, string_empty_append, String.append_assoc]

end FormatLemmas

/-- **C9** (counterexample): for a summary whose only airborne entry has the
non-empty notes "trace", the part_001 `formatSummaryAsText` output nowhere
contains "(trace)" — its airborne bullets omit the notes. -/
theorem formatSummaryAsText_notes_counterexample :
    (Summary.mk "" ["B"] [("Nuts", [AirborneEntry.mk "B" "trace"])] []
        [Member.mk "B" [Restriction.mk "Nuts" "airborne" "trace"]]).airborne =
      [("Nuts", [AirborneEntry.mk "B" "trace"])] ∧
    strIncludes
      (ToolV2.formatSummaryAsText
        (Summary.mk "" ["B"] [("Nuts", [AirborneEntry.mk "B" "trace"])] []
          [Member.mk "B" [Restriction.mk "Nuts" "airborne" "trace"]]))
      "(trace)" = false := by decide

/-- **C9** (amended): both renderers decompose into title, attendee line,
airborne section, other section and by-person section; in the
DietaryRestrictionsTool.jsx variant each airborne bullet carries the
person's notes in parentheses exactly when non-empty, while in the part_001
variant airborne bullets carry only the person's name. -/
theorem formatSummaryAsText_airborne_rendering :
    ∀ s : Summary,
      (ToolV1.formatSummaryAsText s =
        SpecView.titleLine s ++ SpecView.attendeesLine s ++
          SpecView.airborneSection s ++ SpecView.otherSection s ++
          SpecView.byPersonSection s) ∧
      (ToolV2.formatSummaryAsText s =
        SpecView.titleLine s ++ SpecView.attendeesLine s ++
          SpecViewTwo.airborneSection s ++ SpecViewTwo.otherSection s ++
          SpecViewTwo.byPersonSection s) :=
  fun s => ⟨formatV1_sections s, formatV2_sections s⟩

section UrlLemmas

/-- Every UTF-8 byte produced by the encoder fits in one byte. -/
theorem utf8EncodeChar_lt (c : Char) : ∀ b ∈ utf8EncodeChar c, b < 256 := by
  have hv : c.toNat < 0xD800 ∨ (0xE000 ≤ c.toNat ∧ c.toNat < 0x110000) :=
    c.valid
  unfold utf8EncodeChar
  dsimp only
  split_ifs <;>
    · intro b hb
      simp only [List.mem_cons, List.mem_singleton, List.not_mem_nil,
        or_false] at hb
      rcases hb with rfl | rfl | rfl | rfl <;> omega

/-- Decoding the UTF-8 bytes of one character prepends that character. -/
theorem utf8Decode_encode_cons (c : Char) (rest : List Nat) :
    utf8Decode (utf8EncodeChar c ++ rest) = (utf8Decode rest).map (c :: ·) := by
  have hv : c.toNat < 0xD800 ∨ (0xE000 ≤ c.toNat ∧ c.toNat < 0x110000) :=
    c.valid
  unfold utf8Decode
  unfold utf8EncodeChar
  dsimp only
  split_ifs with h1 h2 h3
  · simp only [List.singleton_append]
    rw [utf8DecodeAux]
    rw [if_pos h1, Char.ofNat_toNat]
  · simp only [List.cons_append, List.nil_append]
    rw [utf8DecodeAux, if_neg (by omega), if_pos (by omega)]
    rw [utf8DecodeAux, if_pos (by omega), if_pos rfl, if_pos (by omega)]
    rw [show (0xC0 + c.toNat / 64 - 0xC0) * 64 + (0x80 + c.toNat % 64 - 0x80) =
        c.toNat from by omega]
    rw [Char.ofNat_toNat]
  · simp only [List.cons_append, List.nil_append]
    rw [utf8DecodeAux, if_neg (by omega), if_neg (by omega), if_pos (by omega)]
    rw [utf8DecodeAux, if_pos (by omega), if_neg (by omega)]
    rw [utf8DecodeAux, if_pos (by omega), if_pos rfl, if_pos (by omega)]
    rw [show ((0xE0 + c.toNat / 4096 - 0xE0) * 64 +
        (0x80 + c.toNat / 64 % 64 - 0x80)) * 64 + (0x80 + c.toNat % 64 - 0x80) =
        c.toNat from by omega]
    rw [Char.ofNat_toNat]
  · simp only [List.cons_append, List.nil_append]
    rw [utf8DecodeAux, if_neg (by omega), if_neg (by omega), if_neg (by omega),
      if_pos (by omega)]
    rw [utf8DecodeAux, if_pos (by omega), if_neg (by omega)]
    rw [utf8DecodeAux, if_pos (by omega), if_neg (by omega)]
    rw [utf8DecodeAux, if_pos (by omega), if_pos rfl, if_pos (by omega)]
    rw [show (((0xF0 + c.toNat / 262144 - 0xF0) * 64 +
        (0x80 + c.toNat / 4096 % 64 - 0x80)) * 64 +
        (0x80 + c.toNat / 64 % 64 - 0x80)) * 64 + (0x80 + c.toNat % 64 - 0x80) =
        c.toNat from by omega]
    rw [Char.ofNat_toNat]

/-- Decoding inverts encoding for whole character lists. -/
theorem utf8Decode_flatMap :
    ∀ l : List Char, utf8Decode (l.flatMap utf8EncodeChar) = some l
  | [] => rfl
  | c :: l => by
    rw [List.flatMap_cons, utf8Decode_encode_cons, utf8Decode_flatMap l]
    rfl

/-- The two hexadecimal digit functions are inverse on bytes. -/
theorem hexDigitVal_hexUpper : ∀ n : Nat, n < 16 →
    hexDigitVal (hexUpper n) = some n := by decide

/-- Percent-decoding undoes the `%XY` escaping of a byte list. -/
theorem percentDecodeBytes_escapes :
    ∀ (bs : List Nat), (∀ b ∈ bs, b < 256) → ∀ (rest : List Char),
      percentDecodeBytes (bs.flatMap percentEncodeByte ++ rest) =
        (percentDecodeBytes rest).map (bs ++ ·)
  | [], _, rest => by
    simp only [List.flatMap_nil, List.nil_append]
    cases percentDecodeBytes rest <;> rfl
  | b :: bs, h, rest => by
    have hb : b < 256 := h b (List.mem_cons_self b bs)
    simp only [List.flatMap_cons, percentEncodeByte, List.cons_append,
      List.append_assoc, List.nil_append, percentDecodeBytes]
    rw [percentDecodeAux, if_pos rfl]
    rw [percentDecodeAux, hexDigitVal_hexUpper (b / 16) (by omega)]
    dsimp only [Option.elim]
    rw [if_neg (by omega)]
    rw [percentDecodeAux, hexDigitVal_hexUpper (b % 16) (by omega)]
    dsimp only [Option.elim]
    rw [if_pos rfl]
    have hesc := percentDecodeBytes_escapes bs
      (fun x hx => h x (List.mem_cons_of_mem _ hx)) rest
    unfold percentDecodeBytes at hesc
    rw [hesc, Option.map_map]
    cases percentDecodeAux rest 0 0 <;> simp [Function.comp] <;> omega

/-- Percent-decoding the encoder's output yields the UTF-8 bytes of the
original characters. -/
theorem percentDecodeBytes_encode :
    ∀ (l : List Char),
      percentDecodeBytes (l.flatMap fun c =>
        if isUnreservedChar c then [c]
        else (utf8EncodeChar c).flatMap percentEncodeByte) =
      some (l.flatMap utf8EncodeChar)
  | [] => rfl
  | c :: l => by
    rw [List.flatMap_cons, List.flatMap_cons]
    by_cases hU : isUnreservedChar c
    · rw [if_pos hU]
      have hc : ¬ c = '%' := by
        intro he
        rw [he] at hU
        exact absurd hU (by decide)
      simp only [List.singleton_append, percentDecodeBytes]
      rw [percentDecodeAux, if_neg hc]
      have hrec := percentDecodeBytes_encode l
      unfold percentDecodeBytes at hrec
      rw [hrec]
      rfl
    · rw [if_neg hU,
        percentDecodeBytes_escapes (utf8EncodeChar c) (utf8EncodeChar_lt c) _,
        percentDecodeBytes_encode l]
      rfl

/-- `decodeURIComponent` inverts `encodeURIComponent`. -/
theorem decodeURIComponent_encode (s : String) :
    decodeURIComponent (encodeURIComponent s) = some s := by
  unfold decodeURIComponent encodeURIComponent
  rw [show (String.mk (s.data.flatMap fun c =>
      if isUnreservedChar c then [c]
      else (utf8EncodeChar c).flatMap percentEncodeByte)).data =
      s.data.flatMap fun c =>
        if isUnreservedChar c then [c]
        else (utf8EncodeChar c).flatMap percentEncodeByte from rfl]
  rw [percentDecodeBytes_encode s.data]
  show (utf8Decode (s.data.flatMap utf8EncodeChar)).map String.mk = some s
  rw [utf8Decode_flatMap s.data]
  rfl

/-- A single-character needle is absent exactly when no character matches. -/
theorem listIsSubstr_single_false :
    ∀ l : List Char, listIsSubstr [','] l = false → ∀ c ∈ l, c ≠ ',' := by
  intro l h
  induction l with
  | nil => intro c hc; cases hc
  | cons c rest ih =>
    simp only [listIsSubstr, List.isPrefixOf, Bool.and_true,
      Bool.or_eq_false_iff] at h
    intro x hx
    rcases List.mem_cons.mp hx with rfl | hx
    · intro he
      rw [he] at h
      simpa using h.1
    · exact ih h.2 x hx

/-- `split(',')` of a comma-free character list is that list as one name. -/
theorem splitCommaAux_nocomma :
    ∀ (l acc : List Char), (∀ c ∈ l, c ≠ ',') →
      splitCommaAux acc l = [String.mk (acc.reverse ++ l)]
  | [], acc, _ => by simp [splitCommaAux]
  | c :: l, acc, h => by
    simp only [splitCommaAux]
    rw [if_neg (h c (List.mem_cons_self c l)),
      splitCommaAux_nocomma l (c :: acc)
        (fun x hx => h x (List.mem_cons_of_mem _ hx))]
    simp

/-- `split(',')` splits at the first comma after a comma-free prefix. -/
theorem splitCommaAux_comma :
    ∀ (l1 acc l2 : List Char), (∀ c ∈ l1, c ≠ ',') →
      splitCommaAux acc (l1 ++ ',' :: l2) =
        String.mk (acc.reverse ++ l1) :: splitCommaAux [] l2
  | [], acc, l2, _ => by
    simp [splitCommaAux]
  | c :: l1, acc, l2, h => by
    simp only [List.cons_append, splitCommaAux]
    rw [if_neg (h c (List.mem_cons_self c l1))]
    show splitCommaAux (c :: acc) (l1 ++ ',' :: l2) = _
    rw [splitCommaAux_comma l1 (c :: acc) l2
      (fun x hx => h x (List.mem_cons_of_mem _ hx))]
    simp

/-- Splitting undoes joining for nonempty lists of comma-free names. -/
theorem splitComma_joinComma :
    ∀ (names : List String),
      (∀ nm ∈ names, strIncludes nm "," = false) →
      names ≠ [] → splitComma (joinComma names) = names
  | [], _, hne => absurd rfl hne
  | [s], h, _ => by
    have hc : ∀ c ∈ s.data, c ≠ ',' :=
      listIsSubstr_single_false s.data (h s (List.mem_singleton_self s))
    unfold splitComma joinComma
    rw [splitCommaAux_nocomma s.data [] hc]
    rfl
  | s :: s2 :: rest, h, _ => by
    have hc : ∀ c ∈ s.data, c ≠ ',' :=
      listIsSubstr_single_false s.data (h s (List.mem_cons_self _ _))
    unfold splitComma
    rw [show joinComma (s :: s2 :: rest) =
        s ++ "," ++ joinComma (s2 :: rest) from rfl]
    rw [show (s ++ "," ++ joinComma (s2 :: rest)).data =
        s.data ++ ',' :: (joinComma (s2 :: rest)).data by
      simp [String.data_append]]
    rw [splitCommaAux_comma s.data [] _ hc]
    rw [show String.mk (([] : List Char).reverse ++ s.data) = s from rfl]
    have ih := splitComma_joinComma (s2 :: rest)
      (fun nm hnm => h nm (List.mem_cons_of_mem _ hnm)) (by simp)
    unfold splitComma at ih
    rw [ih]

/-- A string with nonempty data is not the empty string. -/
theorem string_ne_empty_of_data (s : String) (h : s.data ≠ []) : s ≠ "" := by
  intro he
  rw [he] at h
  exact h rfl

/-- Joining a list headed by a nonempty name is nonempty. -/
theorem joinComma_ne_empty (s : String) (rest : List String) (hs : s ≠ "") :
    joinComma (s :: rest) ≠ "" := by
  have hd : s.data ≠ [] := by
    intro hdata
    apply hs
    rw [show s = String.mk s.data from rfl, hdata]
  cases rest with
  | nil => exact hs
  | cons s2 rest2 =>
    intro he
    apply hd
    have hdata : (s ++ "," ++ joinComma (s2 :: rest2)).data = ([] : List Char) := by
      rw [show s ++ "," ++ joinComma (s2 :: rest2) =
          joinComma (s :: s2 :: rest2) from rfl, he]
    rw [String.data_append, String.data_append] at hdata
    exact (List.append_eq_nil.mp (List.append_eq_nil.mp hdata).1).1

/-- The parameters written by `handleGenerate`: the `attendees` key. -/
theorem handleGenerateParams_get_attendees
    (selected : List String) (meal : String) :
    (handleGenerateParams selected meal).get "attendees" =
      some (joinComma selected) := by
  unfold handleGenerateParams
  split_ifs <;> rfl

/-- The parameters written by `handleGenerate`: the `meal` key. -/
theorem handleGenerateParams_get_meal
    (selected : List String) (meal : String) :
    (handleGenerateParams selected meal).get "meal" =
      if meal ≠ "" then some (encodeURIComponent meal) else none := by
  unfold handleGenerateParams
  split_ifs <;> rfl

/-- An empty selection generates no summary. -/
theorem generateSummary_nil (data : Roster) (meal : String) :
    ToolV2.generateSummary data [] meal = none := by
  simp [ToolV2.generateSummary]

end UrlLemmas

/-- **C8** (counterexample): for a roster containing the member "a,b" with
that member selected, the direct summary exists, but the query-parameter
round trip (comma-joining then comma-splitting the attendee names) yields
no summary, so the two are not equal. -/
theorem url_roundtrip_counterexample :
    urlLoadSummary (Roster.mk [Member.mk "a,b" []] [])
        (handleGenerateParams ["a,b"] "") = some none ∧
    ToolV2.generateSummary (Roster.mk [Member.mk "a,b" []] [])
        ["a,b"] "" ≠ none := by decide

/-- **C8** (amended): provided every selected attendee name is nonempty and
contains no comma, encoding the selection into the `attendees` and `meal`
query parameters and decoding them reconstructs exactly the summary
generated directly from the original selection over the same roster. -/
theorem url_roundtrip :
    ∀ (data : Roster) (selected : List String) (meal : String),
      (∀ nm ∈ selected, nm ≠ "" ∧ strIncludes nm "," = false) →
      urlLoadSummary data (handleGenerateParams selected meal) =
        some (ToolV2.generateSummary data selected meal) := by
  intro data selected meal h
  unfold urlLoadSummary
  rw [handleGenerateParams_get_attendees, handleGenerateParams_get_meal]
  cases selected with
  | nil =>
    rw [show joinComma [] = "" from rfl]
    dsimp only
    rw [if_pos rfl, generateSummary_nil]
  | cons s rest =>
    have hne : joinComma (s :: rest) ≠ "" :=
      joinComma_ne_empty s rest (h s (List.mem_cons_self s rest)).1
    dsimp only
    rw [if_neg hne]
    rw [splitComma_joinComma (s :: rest) (fun nm hnm => (h nm hnm).2)
      (by simp)]
    rw [List.filter_eq_self.mpr
      (fun a ha => by simp [(h a ha).1])]
    by_cases hm : meal = ""
    · rw [if_neg (by simpa using hm)]
      dsimp only
      rw [if_pos (by simp)]
      rw [hm]
    · rw [if_pos hm]
      have hmp : ¬ encodeURIComponent meal = "" := by
        intro he
        have hd := decodeURIComponent_encode meal
        rw [he] at hd
        have : meal = "" := by
          have : some "" = some meal := hd
          injection this with h2
          exact h2.symm
        exact hm this
      dsimp only
      rw [if_pos hmp, decodeURIComponent_encode meal]
      dsimp only
      rw [if_pos (by simp)]

/-- Witness for C8: the round trip at a concrete roster and selection. -/
theorem url_roundtrip_witness :
    urlLoadSummary (Roster.mk [Member.mk "Bob" []] [])
        (handleGenerateParams ["bob"] "Tea Time") =
      some (ToolV2.generateSummary (Roster.mk [Member.mk "Bob" []] [])
        ["bob"] "Tea Time") :=
  url_roundtrip (Roster.mk [Member.mk "Bob" []] []) ["bob"] "Tea Time"
    (by decide)

/-- Witness for C7: the cell rule applied at a concrete non-"no" value. -/
theorem parseSheetData_cell_rule_witness :
    parseSheetData [["", "A"], ["Food", "Maybe"]] =
      .ok { members :=
              [ { name := "A", restrictions :=
                    if strTrim "Maybe" = "" ∨
                        strToLower (strTrim "Maybe") = "no" then []
                    else [parseRestrictionCell "Food" (strTrim "Maybe")] } ],
            restrictionsList := ["Food"] } :=
  parseSheetData_cell_rule.1 "Maybe"

